import Mathlib

/-!
Verification of the batch SMS costing, reservation and dispatch engine
(app.py and worker.py). The Python source is shallowly embedded: pure
helpers become Lean functions, the JSON file store becomes explicit list
state, wallet balances are integers in mills, and the Twilio provider and
the phone validator are parameters (black-box collaborators, as the spec
scopes them). Timestamp fields are omitted (wall-clock only).
-/

namespace CA

/-- Price per SMS segment in mills, from app.py (PRICE_PER_SMS_MILLS = 23). -/
def PRICE_PER_SMS_MILLS : Nat := 23

/-- Immediate retry budget from app.py (MAX_IMMEDIATE_RETRIES = 3). -/
def MAX_IMMEDIATE_RETRIES : Nat := 3

/-- is_gsm7 from app.py: true when every character has code point at most 127. -/
def is_gsm7 (s : String) : Bool := s.data.all (fun c => decide (c.toNat ≤ 127))

/-- segments_for_text from app.py: GSM-7 bodies use the 160/153 split,
other bodies the 70/67 split. -/
def segments_for_text (s : String) : Nat :=
  let l := s.length
  if is_gsm7 s then
    if l ≤ 160 then 1 else (l + 152) / 153
  else
    if l ≤ 70 then 1 else (l + 66) / 67

/-- Python str.strip: drop leading and trailing whitespace. -/
def pyStrip (s : String) : String :=
  String.mk (((s.data.dropWhile Char.isWhitespace).reverse.dropWhile Char.isWhitespace).reverse)

/-- Opening curly brace character. -/
def lbrace : Char := '\x7b'

/-- Closing curly brace character. -/
def rbrace : Char := '\x7d'

/-- The template placeholder for a column name: two opening braces, the
name, two closing braces. -/
def token (k : String) : String :=
  String.mk (lbrace :: lbrace :: (k.data ++ [rbrace, rbrace]))

/-- Boolean list-prefix test used by the replacement loop. -/
def isPrefixList : List Char → List Char → Bool
  | [], _ => true
  | _ :: _, [] => false
  | a :: as, b :: bs => a == b && isPrefixList as bs

/-- Fuelled worker for Python str.replace: replace each leftmost,
non-overlapping occurrence of pat. One unit of fuel is spent per step and
the subject shrinks by at least one character per step when pat is
nonempty, so fuel equal to the subject length is always enough. -/
def replaceFuel (pat rep : List Char) : Nat → List Char → List Char
  | 0, s => s
  | _ + 1, [] => []
  | fuel + 1, c :: rest =>
    if isPrefixList pat (c :: rest) then
      rep ++ replaceFuel pat rep fuel ((c :: rest).drop pat.length)
    else
      c :: replaceFuel pat rep fuel rest

/-- Python str.replace on character lists (pat assumed nonempty by callers;
an empty pat is returned unchanged, which the estimator never exercises
because tokens are nonempty). -/
def pyReplaceL (pat rep s : List Char) : List Char :=
  if pat = [] then s else replaceFuel pat rep s.length s

/-- Python str.replace on strings. -/
def pyReplace (s pat rep : String) : String :=
  String.mk (pyReplaceL pat.data rep.data s.data)

/-- No occurrence of pat starts at any position of s (bounded form; for
positions past the end a nonempty pat can never match). -/
def NoHit (pat s : List Char) : Prop :=
  ∀ i, i < s.length → isPrefixList pat (s.drop i) = false

/-- A CSV row as produced by DictReader: column names in order, each with
an optional value. -/
abbrev Row := List (String × Option String)

/-- Python row.get(k): none when the key is absent or its value is none. -/
def getCol (r : Row) (k : String) : Option String :=
  match r.lookup k with
  | some v => v
  | none => none

/-- Python `a or b` restricted to optional strings: the first operand wins
unless it is absent or empty. -/
def pyOrS (a b : Option String) : Option String :=
  match a with
  | some s => if s = "" then b else some s
  | none => b

/-- Raw phone extraction from api_estimate: first nonempty among the
phone, phone_number, mobile and msisdn columns, then stripped. -/
def rawPhone (r : Row) : String :=
  pyStrip ((pyOrS (pyOrS (pyOrS (getCol r "phone") (getCol r "phone_number"))
      (getCol r "mobile")) (getCol r "msisdn")).getD "")

/-- Message resolution from api_estimate: a nonblank explicit message
column is used (stripped), otherwise each column placeholder in the
template is replaced by the value of that column. -/
def resolveMessage (template : String) (r : Row) : String :=
  let m := (getCol r "message").getD ""
  if pyStrip m ≠ "" then pyStrip m
  else r.foldl (fun msg kv => pyReplace msg (token kv.1) (kv.2.getD "")) template

/-- An accepted row of the estimator output. -/
structure ParsedRow where
  phone : String
  message : String
  segments : Nat
  original : Row
deriving DecidableEq

/-- A rejected row of the estimator output. -/
structure RejectedRow where
  row : Row
  reason : String
deriving DecidableEq

/-- Accumulator of the api_estimate row loop. -/
structure EstState where
  parsed : List ParsedRow
  total_segments : Nat
  rejected : List RejectedRow
  seen_phones : List String
deriving DecidableEq

/-- Initial accumulator of the row loop. -/
def initEst : EstState := ⟨[], 0, [], []⟩

/-- One iteration of the api_estimate row loop. The phone validator is a
parameter (black-box collaborator returning a canonical address or a
rejection reason). -/
def stepRow (validate : String → Except String String) (template : String)
    (st : EstState) (r : Row) : EstState :=
  let raw := rawPhone r
  if raw = "" then
    { st with rejected := st.rejected ++ [⟨r, "phone missing"⟩] }
  else
    match validate raw with
    | .error err => { st with rejected := st.rejected ++ [⟨r, err⟩] }
    | .ok phone =>
      if phone ∈ st.seen_phones then st
      else
        let message := resolveMessage template r
        let seg := segments_for_text message
        { parsed := st.parsed ++ [⟨phone, message, seg, r⟩]
          total_segments := st.total_segments + seg
          rejected := st.rejected
          seen_phones := st.seen_phones ++ [phone] }

/-- The api_estimate row loop over all rows. -/
def estimateRows (validate : String → Except String String) (template : String)
    (rows : List Row) : EstState :=
  rows.foldl (stepRow validate template) initEst

/-- Recipient status values from app.py. -/
inductive RStatus where
  | queued
  | sending
  | sent
  | failed
  | delivered
deriving DecidableEq

/-- Job status values from app.py. -/
inductive JStatus where
  | queued
  | completed
deriving DecidableEq

/-- A recipient record (timestamp fields omitted). -/
structure Recipient where
  id : String
  jobId : String
  phone : String
  message : String
  segments : Nat
  status : RStatus
  attempts : Nat
  twilioSid : Option String := none
  twilioStatus : Option String := none
  lastError : Option String := none
deriving DecidableEq

/-- A job record (timestamp and display-string fields omitted; the mills
amounts carry the accounting). -/
structure Job where
  id : String
  totalRecipients : Nat
  totalSegments : Nat
  totalCost_mills : Nat
  pricePerSegment_mills : Nat
  status : JStatus
  sent_segments : Option Nat := none
  failed_segments : Option Nat := none
  actual_cost_mills : Option Int := none
  refund_mills : Option Int := none
deriving DecidableEq

/-- The durable store: wallet balance in mills plus the two JSON lists. -/
structure St where
  wallet : Int
  jobs : List Job
  recips : List Recipient
deriving DecidableEq

/-- Mutate the first recipient with the given id, as the Python loops do
(find the record, mutate it in place, write the list back). -/
def updateFirst (i : String) (u : Recipient → Recipient) : List Recipient → List Recipient
  | [] => []
  | r :: rest => if r.id = i then u r :: rest else r :: updateFirst i u rest

/-- Mutate the first job with the given id. -/
def updateFirstJob (i : String) (u : Job → Job) : List Job → List Job
  | [] => []
  | j :: rest => if j.id = i then u j :: rest else j :: updateFirstJob i u rest

/-- Mutate the first recipient satisfying a predicate (the callback
handler mutates whichever record its search found). -/
def updateFirstWhere (p : Recipient → Bool) (u : Recipient → Recipient) :
    List Recipient → List Recipient
  | [] => []
  | r :: rest => if p r then u r :: rest else r :: updateFirstWhere p u rest

/-- The wallet reservation step of api_estimate: an insufficient balance
yields none and no debit, otherwise the balance is debited. -/
def reserveWallet (wallet : Int) (amount : Nat) : Option Int :=
  if wallet < (amount : Int) then none else some (wallet - (amount : Int))

/-- The job record api_estimate creates for an accepted batch. -/
def mkJob (jobId : String) (est : EstState) : Job :=
  { id := jobId
    totalRecipients := est.parsed.length
    totalSegments := est.total_segments
    totalCost_mills := est.total_segments * PRICE_PER_SMS_MILLS
    pricePerSegment_mills := PRICE_PER_SMS_MILLS
    status := .queued }

/-- The recipient records api_estimate creates, one per accepted row, in
order, all queued with zero attempts. Fresh record ids are supplied by an
id source (uuid4 in the source). -/
def mkRecips (jobId : String) (ids : Nat → String) (parsed : List ParsedRow) :
    List Recipient :=
  parsed.enum.map (fun ip =>
    { id := ids ip.1
      jobId := jobId
      phone := ip.2.phone
      message := ip.2.message
      segments := ip.2.segments
      status := .queued
      attempts := 0 })

/-- The send branch of api_estimate (reserve wallet, create job and
recipients). The Bool reports acceptance; a rejected batch (402) leaves
the store untouched. -/
def api_estimate_send (st : St) (jobId : String) (ids : Nat → String)
    (est : EstState) : St × Bool :=
  let total_cost := est.total_segments * PRICE_PER_SMS_MILLS
  match reserveWallet st.wallet total_cost with
  | none => (st, false)
  | some w =>
    ({ wallet := w
       jobs := st.jobs ++ [mkJob jobId est]
       recips := st.recips ++ mkRecips jobId ids est.parsed }, true)

/-- Drain-loop eligibility in process_job: same job and status queued. -/
def isQueuedOf (jid : String) (r : Recipient) : Bool :=
  r.jobId == jid && r.status == RStatus.queued

/-- The drain-loop selector: first queued recipient of the job. -/
def findQueued (recips : List Recipient) (jid : String) : Option Recipient :=
  recips.find? (isQueuedOf jid)

/-- The inner retry loop of process_job: run the listed attempt indices in
order against the provider, stopping at the first success; every failure
overwrites the last error. -/
def runAttempts (send : Nat → Except String String) :
    List Nat → Option String → Option String × Option String
  | [], lastErr => (none, lastErr)
  | i :: rest, lastErr =>
    match send i with
    | .ok sid => (some sid, lastErr)
    | .error e => runAttempts send rest (some e)

/-- Total attempt budget of the inner loop: range(MAX_IMMEDIATE_RETRIES + 3). -/
def attemptsTotal : Nat := MAX_IMMEDIATE_RETRIES + 3

/-- Outcome of the full retry loop for one recipient: provider sid on
success, and the last recorded error. The provider is a parameter mapping
recipient id and attempt index to a result. -/
def sendOutcome (send : String → Nat → Except String String) (rid : String) :
    Option String × Option String :=
  runAttempts (send rid) (List.range attemptsTotal) none

/-- The pre-send marking: status sending, attempt counter incremented. -/
def markSending (r : Recipient) : Recipient :=
  { r with status := .sending, attempts := r.attempts + 1 }

/-- The post-attempt update: sid recorded and status sent on success,
last error recorded and status failed when every attempt failed. -/
def afterSend (out : Option String × Option String) (r : Recipient) : Recipient :=
  match out with
  | (some sid, _) => { r with twilioSid := some sid, status := .sent }
  | (none, lastErr) => { r with lastError := lastErr, status := .failed }

/-- One iteration of the process_job drain loop: pick the first queued
recipient, mark it sending, run the retry loop, record the outcome.
Returns none when no queued recipient remains. The Bool reports success
and the Nat is the segment count charged to the totals. -/
def drainStep (send : String → Nat → Except String String) (jid : String)
    (recips : List Recipient) : Option (List Recipient × Bool × Nat) :=
  match findQueued recips jid with
  | none => none
  | some nr =>
    let recips1 := updateFirst nr.id markSending recips
    let out := sendOutcome send nr.id
    let recips2 := updateFirst nr.id (afterSend out) recips1
    some (recips2, out.1.isSome, nr.segments)

/-- The fuelled process_job drain loop, accumulating sent and failed
segment totals. Any fuel at least the number of queued recipients of the
job yields the fixed point. -/
def drainLoop (send : String → Nat → Except String String) (jid : String) :
    Nat → List Recipient → Nat → Nat → List Recipient × Nat × Nat
  | 0, recips, s, f => (recips, s, f)
  | fuel + 1, recips, s, f =>
    match drainStep send jid recips with
    | none => (recips, s, f)
    | some (recips2, ok, segs) =>
      if ok then drainLoop send jid fuel recips2 (s + segs) f
      else drainLoop send jid fuel recips2 s (f + segs)

/-- The finalization block of process_job: compute actual cost and refund
from the reserved cost, credit the wallet when the refund is positive, and
mark the job completed with its totals. -/
def finalizeJob (jobs : List Job) (wallet : Int) (jid : String)
    (sent failed : Nat) : List Job × Int :=
  match jobs.find? (fun j => j.id == jid) with
  | none => (jobs, wallet)
  | some job =>
    let reserved : Int := job.totalCost_mills
    let actual : Int := (sent * PRICE_PER_SMS_MILLS : Nat)
    let refund : Int := max 0 (reserved - actual)
    let wallet2 := if refund > 0 then wallet + refund else wallet
    let jobs2 := updateFirstJob jid (fun j =>
      { j with status := .completed
               sent_segments := some sent
               failed_segments := some failed
               actual_cost_mills := some actual
               refund_mills := some refund }) jobs
    (jobs2, wallet2)

/-- process_job end to end: drain the queued recipients of the job, then
finalize it against the wallet. -/
def process_job (send : String → Nat → Except String String) (jid : String)
    (fuel : Nat) (st : St) : St :=
  match drainLoop send jid fuel st.recips 0 0 with
  | (recips2, s, f) =>
    match finalizeJob st.jobs st.wallet jid s f with
    | (jobs2, w2) => { wallet := w2, jobs := jobs2, recips := recips2 }

/-- Membership test of the startup resume scan: the job has a recipient
left in status queued or sending, so a worker is relaunched for it. -/
def resumes (recips : List Recipient) (jid : String) : Bool :=
  recips.any (fun r =>
    r.jobId == jid && (r.status == RStatus.queued || r.status == RStatus.sending))

/-- The admin top-up endpoint: a zero amount is rejected, any other
caller-supplied amount (possibly negative) is added unchecked. -/
def api_topup (wallet : Int) (amount : Int) : Option Int :=
  if amount = 0 then none else some (wallet + amount)

/-- The status filter of the callback fallback lookup: queued, sending or
sent. -/
def statusMatch (r : Recipient) : Bool :=
  r.status == RStatus.queued || r.status == RStatus.sending || r.status == RStatus.sent

/-- Apply a delivery-status string to a recipient record: the raw provider
status is always recorded; delivered, failed/undelivered and sent map onto
the recipient status, anything else leaves it. -/
def applyStatus (status : Option String) (r : Recipient) : Recipient :=
  let r1 := { r with twilioStatus := status }
  match status with
  | some "delivered" => { r1 with status := .delivered }
  | some "failed" => { r1 with status := .failed }
  | some "undelivered" => { r1 with status := .failed }
  | some "sent" => { r1 with status := .sent }
  | _ => r1

/-- Predicate of the primary callback lookup: exact provider sid match. -/
def bySid (sid : Option String) (r : Recipient) : Bool :=
  match sid with
  | some s => r.twilioSid == some s
  | none => false

/-- Predicate of the fallback callback lookup: destination match among
recipients still queued, sending or sent. -/
def byTo (dst : Option String) (r : Recipient) : Bool :=
  match dst with
  | some t => r.phone == t && statusMatch r
  | none => false

/-- api_twilio_status: look up by provider sid, then by destination; apply
the status to the found record; otherwise change nothing. Absent or empty
form fields are modelled as none. -/
def api_twilio_status (recips : List Recipient) (sid dst status : Option String) :
    List Recipient :=
  if sid.isNone && dst.isNone then recips
  else if (recips.find? (bySid sid)).isSome then
    updateFirstWhere (bySid sid) (applyStatus status) recips
  else if (recips.find? (byTo dst)).isSome then
    updateFirstWhere (byTo dst) (applyStatus status) recips
  else recips

/-- Eligibility filter of the standalone worker loop in worker.py: queued
with fewer than 4 attempts. -/
def workerEligible (r : Recipient) : Bool :=
  r.status == RStatus.queued && r.attempts < 4

/-- The drain filter of worker.py. -/
def worker_select (recips : List Recipient) : List Recipient :=
  recips.filter workerEligible

/-- One send attempt of worker.py for the record with the given id: mark
the attempt (counter incremented, status sending), call the provider once,
then record sent, or on error record the message and fall back to queued
below 4 attempts and failed at 4. -/
def worker_attempt (oracle : String → Except String String)
    (recips : List Recipient) (rid : String) : List Recipient :=
  match recips.find? (fun r => r.id == rid) with
  | none => recips
  | some _ =>
    let recips1 := updateFirst rid
      (fun rr => { rr with attempts := rr.attempts + 1, status := .sending }) recips
    match oracle rid with
    | .ok sid =>
      updateFirst rid (fun rr => { rr with twilioSid := some sid, status := .sent }) recips1
    | .error e =>
      updateFirst rid (fun rr =>
        { rr with lastError := some e
                  status := if rr.attempts ≥ 4 then .failed else .queued }) recips1

/-- One pass of the worker_loop body: snapshot the eligible queue, take a
batch of at most conc records, attempt each in order. -/
def worker_batch (oracle : String → Except String String)
    (recips : List Recipient) (conc : Nat) : List Recipient :=
  ((worker_select recips).take conc).foldl (fun acc r => worker_attempt oracle acc r.id) recips

/-- Whether the full retry loop succeeds for a recipient. -/
def succeedsFor (send : String → Nat → Except String String) (r : Recipient) : Bool :=
  (sendOutcome send r.id).1.isSome

/-- Segment contribution of a recipient to the sent total. -/
def sentInd (send : String → Nat → Except String String) (jid : String)
    (r : Recipient) : Nat :=
  if isQueuedOf jid r && succeedsFor send r then r.segments else 0

/-- Segment contribution of a recipient to the failed total. -/
def failedInd (send : String → Nat → Except String String) (jid : String)
    (r : Recipient) : Nat :=
  if isQueuedOf jid r && !succeedsFor send r then r.segments else 0

/-- Sent-segment total of a recipient list. -/
def sentSum (send : String → Nat → Except String String) (jid : String)
    (l : List Recipient) : Nat :=
  (l.map (sentInd send jid)).sum

/-- Failed-segment total of a recipient list. -/
def failedSum (send : String → Nat → Except String String) (jid : String)
    (l : List Recipient) : Nat :=
  (l.map (failedInd send jid)).sum

/-- Number of queued recipients of the job (drain-loop measure). -/
def countQueued (jid : String) (l : List Recipient) : Nat :=
  (l.map (fun r => if isQueuedOf jid r then 1 else 0)).sum

/-- Final form of one recipient after the drain loop: a queued recipient
of the job is marked, attempted and recorded; everything else is left. -/
def resolveRecip (send : String → Nat → Except String String) (jid : String)
    (r : Recipient) : Recipient :=
  if isQueuedOf jid r then afterSend (sendOutcome send r.id) (markSending r) else r

/-- Final form of one recipient after a worker.py attempt. -/
def wtransition (oracle : String → Except String String) (r : Recipient) : Recipient :=
  match oracle r.id with
  | .ok sid =>
    { r with attempts := r.attempts + 1, status := .sent, twilioSid := some sid }
  | .error e =>
    { r with attempts := r.attempts + 1
             lastError := some e
             status := if r.attempts + 1 ≥ 4 then .failed else .queued }

/-- Fixture: a job with two priced segments reserved at 46 mills. -/
def jobA : Job :=
  { id := "j1", totalRecipients := 1, totalSegments := 2, totalCost_mills := 46
    pricePerSegment_mills := 23, status := .queued }

/-- Fixture: a queued recipient of jobA. -/
def recQueued : Recipient :=
  { id := "r1", jobId := "j1", phone := "+14165551234", message := "hi"
    segments := 2, status := .queued, attempts := 0 }

/-- Fixture: a recipient of jobA stranded in status sending. -/
def recSending : Recipient :=
  { id := "r1", jobId := "j1", phone := "+14165551234", message := "hi"
    segments := 2, status := .sending, attempts := 1 }

/-- Fixture: store with the one queued recipient. -/
def stQueued : St := { wallet := 0, jobs := [jobA], recips := [recQueued] }

/-- Fixture: store with the one sending recipient and no queued one. -/
def stSending : St := { wallet := 0, jobs := [jobA], recips := [recSending] }

/-- Fixture: a provider that fails every attempt. -/
def sendFail : String → Nat → Except String String := fun _ _ => .error "boom"

/-- Fixture: a single-shot provider that always fails. -/
def oracleFail : String → Except String String := fun _ => .error "boom"

/-- Fixture: a validator that accepts every raw phone as canonical. -/
def okValidate : String → Except String String := fun raw => .ok raw

/-! Helper lemmas. -/

/-- A map that fixes every member of a list fixes the list. -/
theorem map_fix {α : Type} (l : List α) (f : α → α) (h : ∀ a ∈ l, f a = a) :
    l.map f = l := by
  induction l with
  | nil => rfl
  | cons a t ih =>
    simp only [List.map_cons, h a (List.mem_cons_self a t)]
    rw [ih (fun b hb => h b (List.mem_cons_of_mem a hb))]

/-- With pairwise distinct ids, a member is determined by its id. -/
theorem eq_of_id_eq (l : List Recipient) (hids : (l.map Recipient.id).Nodup)
    (b : Recipient) (hb : b ∈ l) : ∀ r ∈ l, r.id = b.id → r = b := by
  induction l with
  | nil => simp
  | cons a t ih =>
    simp only [List.map_cons, List.nodup_cons] at hids
    intro r hr hrid
    rcases List.mem_cons.mp hr with rfl | hrt
    · rcases List.mem_cons.mp hb with rfl | hbt
      · rfl
      · exact absurd (hrid ▸ List.mem_map_of_mem Recipient.id hbt) hids.1
    · rcases List.mem_cons.mp hb with rfl | hbt
      · exact absurd (hrid ▸ List.mem_map_of_mem Recipient.id hrt) hids.1
      · exact ih hids.2 hbt r hrt hrid

/-- With pairwise distinct ids, the in-place mutation of the first record
with a given id is a pointwise map. -/
theorem updateFirst_eq_map (i : String) (u : Recipient → Recipient) :
    ∀ l : List Recipient, (l.map Recipient.id).Nodup →
    updateFirst i u l = l.map (fun r => if r.id = i then u r else r) := by
  intro l
  induction l with
  | nil => intro _; rfl
  | cons a t ih =>
    intro hids
    simp only [List.map_cons, List.nodup_cons] at hids
    by_cases ha : a.id = i
    · simp only [updateFirst, ha, if_true, List.map_cons, if_pos rfl]
      rw [map_fix]
      intro r hr
      rw [if_neg]
      intro hri
      exact hids.1 (ha ▸ hri ▸ List.mem_map_of_mem Recipient.id hr)
    · simp only [updateFirst, ha, if_false, List.map_cons, if_neg ha]
      rw [ih hids.2]

/-- Finding a job by id after the in-place job mutation. -/
theorem find?_updateFirstJob (jid : String) (u : Job → Job)
    (hu : ∀ j, (u j).id = j.id) :
    ∀ (jobs : List Job) (job : Job),
    jobs.find? (fun j => j.id == jid) = some job →
    (updateFirstJob jid u jobs).find? (fun j => j.id == jid) = some (u job) := by
  intro jobs
  induction jobs with
  | nil => intro job h; simp [List.find?] at h
  | cons a t ih =>
    intro job h
    by_cases ha : a.id = jid
    · rw [List.find?_cons_of_pos _ (by simp [ha])] at h
      simp only [updateFirstJob, if_pos ha]
      rw [List.find?_cons_of_pos _ (by simp [hu a, ha])]
      rw [Option.some_inj] at h
      rw [h]
    · rw [List.find?_cons_of_neg _ (by simp [ha])] at h
      simp only [updateFirstJob, if_neg ha]
      rw [List.find?_cons_of_neg _ (by simp [ha])]
      exact ih job h

/-- With pairwise distinct ids, searching for the id of a member finds
that member. -/
theorem find?_of_id (l : List Recipient) (hids : (l.map Recipient.id).Nodup)
    (b : Recipient) (hb : b ∈ l) :
    l.find? (fun r => r.id == b.id) = some b := by
  induction l with
  | nil => simp at hb
  | cons a t ih =>
    simp only [List.map_cons, List.nodup_cons] at hids
    rcases List.mem_cons.mp hb with rfl | hbt
    · exact List.find?_cons_of_pos _ (by simp)
    · rw [List.find?_cons_of_neg, ih hids.2 hbt]
      simp only [beq_iff_eq]
      intro hab
      exact hids.1 (hab ▸ List.mem_map_of_mem Recipient.id hbt)

/-- Sum bookkeeping under a pointwise update touching one member. -/
theorem sum_map_update (g : Recipient → Nat) (u : Recipient → Recipient) (b : Recipient) :
    ∀ l : List Recipient, l.Nodup → b ∈ l → (∀ r ∈ l, r ≠ b → u r = r) →
    ((l.map u).map g).sum + g b = (l.map g).sum + g (u b) := by
  intro l
  induction l with
  | nil => intro _ hb; simp at hb
  | cons a t ih =>
    intro hnd hb hfix
    simp only [List.nodup_cons] at hnd
    rcases List.mem_cons.mp hb with rfl | hbt
    · have ht : t.map u = t := by
        apply map_fix
        intro r hr
        exact hfix r (List.mem_cons_of_mem _ hr) (fun hrb => hnd.1 (hrb ▸ hr))
      simp only [List.map_cons, List.sum_cons, ht]
      omega
    · have ha : u a = a :=
        hfix a (List.mem_cons_self a t) (fun hab => hnd.1 (hab ▸ hbt))
      have := ih hnd.2 hbt (fun r hr => hfix r (List.mem_cons_of_mem _ hr))
      simp only [List.map_cons, List.sum_cons, ha]
      omega

/-- A list of naturals summing to zero is pointwise zero. -/
theorem sum_zero_mem {l : List Nat} (h : l.sum = 0) : ∀ x ∈ l, x = 0 := by
  induction l with
  | nil => simp
  | cons a t ih =>
    simp only [List.sum_cons] at h
    intro x hx
    rcases List.mem_cons.mp hx with rfl | hxt
    · omega
    · exact ih (by omega) x hxt

/-! C5: segment counting. -/

set_option maxRecDepth 4000 in
/-- C5: the segment count matches the 160/153 GSM-7 and 70/67 Unicode
split: the GSM-7 class is exactly code points at most 127; a body at most
160 (respectively 70) characters is one segment; a longer one gets the
ceiling of length over 153 (respectively 67), characterised by the two
ceiling inequalities; and the four boundary examples 160, 161, 70 and 71
evaluate as the claim states. -/
theorem c5_segments :
    (∀ s : String, (is_gsm7 s = true ↔ ∀ c ∈ s.data, c.toNat ≤ 127)) ∧
    (∀ s : String, is_gsm7 s = true → s.length ≤ 160 → segments_for_text s = 1) ∧
    (∀ s : String, is_gsm7 s = true → 160 < s.length →
      s.length ≤ 153 * segments_for_text s ∧
      153 * (segments_for_text s - 1) < s.length) ∧
    (∀ s : String, is_gsm7 s = false → s.length ≤ 70 → segments_for_text s = 1) ∧
    (∀ s : String, is_gsm7 s = false → 70 < s.length →
      s.length ≤ 67 * segments_for_text s ∧
      67 * (segments_for_text s - 1) < s.length) ∧
    segments_for_text (String.mk (List.replicate 160 'a')) = 1 ∧
    segments_for_text (String.mk (List.replicate 161 'a')) = 2 ∧
    segments_for_text (String.mk ('é' :: List.replicate 69 'a')) = 1 ∧
    segments_for_text (String.mk ('é' :: List.replicate 70 'a')) = 2 := by
  refine ⟨?_, ?_, ?_, ?_, ?_, by decide, by decide, by decide, by decide⟩
  · intro s
    simp [is_gsm7, List.all_eq_true]
  · intro s hg hl
    simp [segments_for_text, hg, hl]
  · intro s hg hl
    have hseg : segments_for_text s = (s.length + 152) / 153 := by
      simp [segments_for_text, hg, Nat.not_le.mpr hl]
    rw [hseg]
    omega
  · intro s hg hl
    simp [segments_for_text, hg, hl]
  · intro s hg hl
    have hseg : segments_for_text s = (s.length + 66) / 67 := by
      simp [segments_for_text, hg, Nat.not_le.mpr hl]
    rw [hseg]
    omega

set_option maxRecDepth 4000 in
/-- Witness for C5 at two concrete bodies: a five-character ASCII body is
one segment, and the 161-character ASCII body satisfies both ceiling
bounds. -/
theorem c5_segments_witness :
    segments_for_text "hello" = 1 ∧
    (161 ≤ 153 * segments_for_text (String.mk (List.replicate 161 'a')) ∧
     153 * (segments_for_text (String.mk (List.replicate 161 'a')) - 1) < 161) :=
  ⟨c5_segments.2.1 "hello" (by decide) (by decide),
   by
    have h := c5_segments.2.2.1 (String.mk (List.replicate 161 'a')) (by decide) (by decide)
    simpa using h⟩

/-! C2: reservation success and failure. -/

/-- C2: the send branch of api_estimate fails exactly when the total cost
exceeds the wallet balance; on failure the whole store (wallet, jobs,
recipients) is unchanged, and on success the wallet is debited by exactly
the total cost while one job and one recipient per accepted row are
appended. -/
theorem c2_reserve_insufficient (st : St) (jobId : String) (ids : Nat → String)
    (est : EstState) :
    ((api_estimate_send st jobId ids est).2 = false ↔
      st.wallet < ((est.total_segments * PRICE_PER_SMS_MILLS : Nat) : Int)) ∧
    ((api_estimate_send st jobId ids est).2 = false →
      (api_estimate_send st jobId ids est).1 = st) ∧
    ((api_estimate_send st jobId ids est).2 = true →
      (api_estimate_send st jobId ids est).1.wallet =
        st.wallet - ((est.total_segments * PRICE_PER_SMS_MILLS : Nat) : Int) ∧
      (api_estimate_send st jobId ids est).1.jobs = st.jobs ++ [mkJob jobId est] ∧
      (api_estimate_send st jobId ids est).1.recips =
        st.recips ++ mkRecips jobId ids est.parsed ∧
      (mkRecips jobId ids est.parsed).length = est.parsed.length) := by
  by_cases h : st.wallet < ((est.total_segments * PRICE_PER_SMS_MILLS : Nat) : Int)
  · simp only [api_estimate_send, reserveWallet, if_pos h]
    simp [h]
    push_cast at h
    exact h
  · simp only [api_estimate_send, reserveWallet, if_neg h]
    simp [h, mkRecips]
    push_cast at h
    omega

/-- Witness for C2 at a concrete store: a 46-mill batch against a 10-mill
wallet is rejected and the store is unchanged. -/
theorem c2_reserve_insufficient_witness :
    (api_estimate_send { wallet := 10, jobs := [], recips := [] } "j1" (fun _ => "r")
      { parsed := [], total_segments := 2, rejected := [], seen_phones := [] }).1 =
      { wallet := 10, jobs := [], recips := [] } :=
  (c2_reserve_insufficient { wallet := 10, jobs := [], recips := [] } "j1" (fun _ => "r")
    { parsed := [], total_segments := 2, rejected := [], seen_phones := [] }).2.1 (by decide)

/-! C3: wallet non-negativity. -/

/-- C3 counterexample: the top-up endpoint accepts a negative amount with
no balance check, so from the non-negative balance 0 the recorded balance
becomes -1, which is negative; the claimed invariant fails for topUp. -/
theorem c3_counterexample :
    api_topup 0 (-1) = some (-1) ∧ (-1 : Int) < 0 := by decide

/-- C3 amended: from a non-negative balance, the reserve debit and the
finalization refund credit keep the balance non-negative; the top-up
credit keeps it non-negative only when the supplied amount is at least the
negated balance (a more negative amount drives the balance below zero). -/
theorem c3_amended (w : Int) (hw : 0 ≤ w) :
    (∀ (a : Nat) (w2 : Int), reserveWallet w a = some w2 → 0 ≤ w2) ∧
    (∀ (jobs : List Job) (jid : String) (s f : Nat),
      0 ≤ (finalizeJob jobs w jid s f).2) ∧
    (∀ (amt w2 : Int), api_topup w amt = some w2 → 0 ≤ w + amt → 0 ≤ w2) := by
  refine ⟨?_, ?_, ?_⟩
  · intro a w2 h
    unfold reserveWallet at h
    split at h
    · exact absurd h (by simp)
    · rw [Option.some_inj] at h
      omega
  · intro jobs jid s f
    unfold finalizeJob
    split
    · exact hw
    · simp only
      split
      · exact add_nonneg hw (le_max_left _ _)
      · exact hw
  · intro amt w2 h hge
    unfold api_topup at h
    split at h
    · exact absurd h (by simp)
    · rw [Option.some_inj] at h
      omega

/-- Witness for C3 amended: from balance 5 the finalization of an unknown
job leaves the balance 5, non-negative. -/
theorem c3_amended_witness : 0 ≤ (finalizeJob [] 5 "j" 0 0).2 :=
  (c3_amended 5 (by norm_num)).2.1 [] "j" 0 0

/-! C9: unmatched delivery callbacks. -/

/-- C9: a delivery-status callback whose provider sid matches no recorded
twilioSid and whose destination matches no recipient in status queued,
sending or sent leaves the recipient list exactly as it was, with no
error. -/
theorem c9_callback_noop (recips : List Recipient) (sid dst status : Option String)
    (hsid : ∀ s, sid = some s → ∀ r ∈ recips, r.twilioSid ≠ some s)
    (hdst : ∀ t, dst = some t → ∀ r ∈ recips, ¬(r.phone = t ∧ statusMatch r = true)) :
    api_twilio_status recips sid dst status = recips := by
  have h1 : recips.find? (bySid sid) = none := by
    rw [List.find?_eq_none]
    intro r hr
    unfold bySid
    cases sid with
    | none => simp
    | some s =>
      simp only [beq_iff_eq]
      exact hsid s rfl r hr
  have h2 : recips.find? (byTo dst) = none := by
    rw [List.find?_eq_none]
    intro r hr
    unfold byTo
    cases dst with
    | none => simp
    | some t =>
      simp only [Bool.and_eq_true, beq_iff_eq, not_and]
      intro hph hst
      exact hdst t rfl r hr ⟨hph, hst⟩
  simp [api_twilio_status, h1, h2]

/-- Witness for C9: a callback with an unknown sid and an unknown
destination leaves the one-recipient store untouched. -/
theorem c9_callback_noop_witness :
    api_twilio_status [recQueued] (some "SM9") (some "+15550001111") (some "delivered") =
      [recQueued] := by
  apply c9_callback_noop
  · intro s hs r hr
    rw [List.mem_singleton] at hr
    subst hr
    rw [Option.some_inj] at hs
    subst hs
    decide
  · intro t ht r hr
    rw [List.mem_singleton] at hr
    subst hr
    rw [Option.some_inj] at ht
    subst ht
    decide

/-! C1: refund arithmetic at finalization. -/

/-- C1: after a successful reservation of the total cost recorded on the
job, finalizing with s sent segments such that the actual cost does not
exceed the reservation records refund = reserved - actual on the job,
marks it completed, and leaves the wallet at its pre-reservation balance
minus the actual cost. -/
theorem c1_refund_and_balance (w0 w1 : Int) (jobs : List Job) (jid : String)
    (job : Job) (s f : Nat)
    (hfind : jobs.find? (fun j => j.id == jid) = some job)
    (hcap : s * PRICE_PER_SMS_MILLS ≤ job.totalCost_mills)
    (hres : reserveWallet w0 job.totalCost_mills = some w1) :
    ∃ j2, (finalizeJob jobs w1 jid s f).1.find? (fun j => j.id == jid) = some j2 ∧
      j2.status = JStatus.completed ∧
      j2.refund_mills =
        some ((job.totalCost_mills : Int) - ((s * PRICE_PER_SMS_MILLS : Nat) : Int)) ∧
      j2.sent_segments = some s ∧
      (finalizeJob jobs w1 jid s f).2 = w0 - ((s * PRICE_PER_SMS_MILLS : Nat) : Int) := by
  unfold reserveWallet at hres
  split at hres
  · exact absurd hres (by simp)
  rename_i hwge
  rw [Option.some_inj] at hres
  have hcapz : ((s * PRICE_PER_SMS_MILLS : Nat) : Int) ≤ (job.totalCost_mills : Int) :=
    Int.ofNat_le.mpr hcap
  have hmax : max 0 ((job.totalCost_mills : Int) - ((s * PRICE_PER_SMS_MILLS : Nat) : Int)) =
      (job.totalCost_mills : Int) - ((s * PRICE_PER_SMS_MILLS : Nat) : Int) :=
    max_eq_right (by omega)
  unfold finalizeJob
  rw [hfind]
  simp only [hmax]
  refine ⟨_, find?_updateFirstJob jid
    (fun j => { j with status := JStatus.completed
                       sent_segments := some s
                       failed_segments := some f
                       actual_cost_mills := some ((s * PRICE_PER_SMS_MILLS : Nat) : Int)
                       refund_mills := some ((job.totalCost_mills : Int) -
                         ((s * PRICE_PER_SMS_MILLS : Nat) : Int)) })
    (fun j => rfl) jobs job hfind, rfl, rfl, rfl, ?_⟩
  split
  · omega
  · rename_i hnpos
    omega

/-- Witness for C1: reserving 46 mills from a 100-mill wallet and
finalizing with one sent segment of the two reserved refunds 23 mills and
leaves the wallet at 77 mills. -/
theorem c1_refund_and_balance_witness :
    ∃ j2, (finalizeJob [jobA] 54 "j1" 1 1).1.find? (fun j => j.id == "j1") = some j2 ∧
      j2.status = JStatus.completed ∧
      j2.refund_mills = some ((jobA.totalCost_mills : Int) -
        ((1 * PRICE_PER_SMS_MILLS : Nat) : Int)) ∧
      j2.sent_segments = some 1 ∧
      (finalizeJob [jobA] 54 "j1" 1 1).2 = 100 - ((1 * PRICE_PER_SMS_MILLS : Nat) : Int) :=
  c1_refund_and_balance 100 54 [jobA] "j1" jobA 1 1 (by decide) (by decide) (by decide)

/-! Drain-loop machinery for process_job. -/

/-- After the post-attempt update a recipient is never queued. -/
theorem afterSend_not_queued (out : Option String × Option String) (jid : String)
    (r : Recipient) : isQueuedOf jid (afterSend out r) = false := by
  rcases out with ⟨fst, snd⟩
  cases fst with
  | none => simp [afterSend, isQueuedOf]
  | some sid => simp [afterSend, isQueuedOf]

/-- The pointwise updates of the drain loop preserve record ids. -/
theorem drain_ids_fixed (i : String) (u : Recipient → Recipient)
    (hu : ∀ r, (u r).id = r.id) (l : List Recipient) :
    (l.map (fun r => if r.id = i then u r else r)).map Recipient.id =
      l.map Recipient.id := by
  rw [List.map_map]
  apply List.map_congr_left
  intro r _
  by_cases h : r.id = i
  · simp [h, hu]
  · simp [h]

/-- With no queued recipient of the job left, the drain loop is done for
any fuel. -/
theorem drainLoop_no_queued (send : String → Nat → Except String String)
    (jid : String) :
    ∀ (fuel : Nat) (l : List Recipient) (s f : Nat),
    (∀ r ∈ l, isQueuedOf jid r = false) →
    drainLoop send jid fuel l s f = (l, s, f) := by
  intro fuel
  induction fuel with
  | zero => intro l s f _; rfl
  | succ n ih =>
    intro l s f h
    have hfind : findQueued l jid = none := List.find?_eq_none.mpr (by simpa using h)
    simp [drainLoop, drainStep, hfind]

/-- With no queued recipient of the job, the resolution map fixes the
list and both totals are zero. -/
theorem drain_done (send : String → Nat → Except String String) (jid : String)
    (l : List Recipient) (h : ∀ r ∈ l, isQueuedOf jid r = false) :
    l.map (resolveRecip send jid) = l ∧
    sentSum send jid l = 0 ∧ failedSum send jid l = 0 := by
  refine ⟨map_fix l _ (fun r hr => by simp [resolveRecip, h r hr]), ?_, ?_⟩
  · apply List.sum_eq_zero
    intro x hx
    rcases List.mem_map.mp hx with ⟨r, hr, rfl⟩
    simp [sentInd, h r hr]
  · apply List.sum_eq_zero
    intro x hx
    rcases List.mem_map.mp hx with ⟨r, hr, rfl⟩
    simp [failedInd, h r hr]

/-- A positive queued count yields a first queued recipient. -/
theorem findQueued_of_count (jid : String) (l : List Recipient)
    (h : countQueued jid l ≠ 0) : ∃ nr, findQueued l jid = some nr := by
  cases hfind : findQueued l jid with
  | some nr => exact ⟨nr, rfl⟩
  | none =>
    exfalso
    apply h
    apply List.sum_eq_zero
    intro x hx
    rcases List.mem_map.mp hx with ⟨r, hr, rfl⟩
    have := List.find?_eq_none.mp hfind r hr
    simp [this]

/-- The post-attempt update preserves the record id. -/
theorem afterSend_id (out : Option String × Option String) (r : Recipient) :
    (afterSend out r).id = r.id := by
  rcases out with ⟨fst, snd⟩
  cases fst <;> simp [afterSend]

/-- A queued recipient of the job resolves to its attempted form. -/
theorem resolveRecip_of_queued (send : String → Nat → Except String String)
    (jid : String) (r : Recipient) (h : isQueuedOf jid r = true) :
    resolveRecip send jid r = afterSend (sendOutcome send r.id) (markSending r) := by
  unfold resolveRecip
  rw [if_pos h]

/-- A recipient that is not a queued one of the job resolves to itself. -/
theorem resolveRecip_fix (send : String → Nat → Except String String)
    (jid : String) (r : Recipient) (h : isQueuedOf jid r = false) :
    resolveRecip send jid r = r := by
  unfold resolveRecip
  rw [if_neg]
  rw [h]
  simp

/-- Specialised bookkeeping: the updated member contributes its new value
to the mapped sum, every other member is untouched. -/
theorem sum_map_update_vals (g : Recipient → Nat) (u : Recipient → Recipient)
    (b : Recipient) (l : List Recipient) (hnd : l.Nodup) (hb : b ∈ l)
    (hfix : ∀ r ∈ l, r ≠ b → u r = r) (vb vub : Nat)
    (hgb : g b = vb) (hgub : g (u b) = vub) :
    ((l.map u).map g).sum + vb = (l.map g).sum + vub := by
  rw [← hgb, ← hgub]
  exact sum_map_update g u b l hnd hb hfix

/-- The drain loop, run with fuel at least the queued count and pairwise
distinct record ids, resolves every queued recipient of the job pointwise
and adds the sent and failed segment totals of the list to the
accumulators. -/
theorem drainLoop_correct (send : String → Nat → Except String String) (jid : String) :
    ∀ (n fuel : Nat) (l : List Recipient) (s f : Nat),
    countQueued jid l = n → n ≤ fuel → (l.map Recipient.id).Nodup →
    drainLoop send jid fuel l s f =
      (l.map (resolveRecip send jid), s + sentSum send jid l, f + failedSum send jid l) := by
  intro n
  induction n with
  | zero =>
    intro fuel l s f hc _ _
    have hall : ∀ r ∈ l, isQueuedOf jid r = false := by
      intro r hr
      have hz := sum_zero_mem hc _ (List.mem_map_of_mem _ hr)
      cases hq : isQueuedOf jid r
      · rfl
      · simp [hq] at hz
    obtain ⟨h1, h2, h3⟩ := drain_done send jid l hall
    rw [drainLoop_no_queued send jid fuel l s f hall, h1, h2, h3]
    simp
  | succ n ih =>
    intro fuel l s f hc hfuel hids
    obtain ⟨nr, hfq⟩ := findQueued_of_count jid l (by omega)
    have hq : isQueuedOf jid nr = true := List.find?_some hfq
    have hmem : nr ∈ l := List.mem_of_find?_eq_some hfq
    obtain ⟨fuel', rfl⟩ : ∃ m, fuel = m + 1 := by
      cases fuel
      · omega
      · exact ⟨_, rfl⟩
    have hnd : l.Nodup := List.Nodup.of_map _ hids
    set uu : Recipient → Recipient :=
      fun r => if r.id = nr.id then afterSend (sendOutcome send nr.id) (markSending r) else r
      with huu
    have hids1 : ((l.map (fun r => if r.id = nr.id then markSending r else r)).map
        Recipient.id).Nodup := by
      rw [drain_ids_fixed nr.id markSending (fun r => rfl) l]
      exact hids
    have hrec2 : updateFirst nr.id (afterSend (sendOutcome send nr.id))
        (updateFirst nr.id markSending l) = l.map uu := by
      rw [updateFirst_eq_map nr.id markSending l hids,
        updateFirst_eq_map nr.id (afterSend (sendOutcome send nr.id)) _ hids1, List.map_map]
      apply List.map_congr_left
      intro r _
      by_cases h : r.id = nr.id
      · simp [h, huu, markSending]
      · simp [h, huu]
    have hstep : drainStep send jid l =
        some (l.map uu, (sendOutcome send nr.id).1.isSome, nr.segments) := by
      unfold drainStep
      rw [hfq]
      simp only
      rw [hrec2]
    have hfixes : ∀ r ∈ l, r ≠ nr → uu r = r := by
      intro r hr hrne
      rw [huu]
      simp only
      rw [if_neg]
      intro hrid
      exact hrne (eq_of_id_eq l hids nr hmem r hr hrid)
    have huunr : uu nr = afterSend (sendOutcome send nr.id) (markSending nr) := by
      rw [huu]
      simp
    have hids2 : ((l.map uu).map Recipient.id).Nodup := by
      rw [huu, drain_ids_fixed nr.id (fun r => afterSend (sendOutcome send nr.id) (markSending r))
        (fun r => afterSend_id (sendOutcome send nr.id) (markSending r)) l]
      exact hids
    have hcount2 : countQueued jid (l.map uu) = n := by
      have h := sum_map_update_vals (fun r => if isQueuedOf jid r then 1 else 0) uu nr l
        hnd hmem hfixes 1 0 (by simp [hq]) (by rw [huunr]; simp [afterSend_not_queued])
      unfold countQueued at hc ⊢
      omega
    have hmapres : (l.map uu).map (resolveRecip send jid) = l.map (resolveRecip send jid) := by
      rw [List.map_map]
      apply List.map_congr_left
      intro r hr
      simp only [Function.comp_apply]
      by_cases h : r = nr
      · rw [h, huunr,
          resolveRecip_fix send jid _ (afterSend_not_queued (sendOutcome send nr.id) jid _),
          resolveRecip_of_queued send jid nr hq]
      · rw [hfixes r hr h]
    have hsent2 := sum_map_update_vals (sentInd send jid) uu nr l hnd hmem hfixes
      (if succeedsFor send nr then nr.segments else 0) 0
      (by by_cases hsu : succeedsFor send nr <;> simp [sentInd, hq, hsu])
      (by rw [huunr]; simp [sentInd, afterSend_not_queued])
    have hfail2 := sum_map_update_vals (failedInd send jid) uu nr l hnd hmem hfixes
      (if succeedsFor send nr then 0 else nr.segments) 0
      (by by_cases hsu : succeedsFor send nr <;> simp [failedInd, hq, hsu])
      (by rw [huunr]; simp [failedInd, afterSend_not_queued])
    simp only [drainLoop, hstep]
    by_cases hok : (sendOutcome send nr.id).1.isSome
    · have hsucc : succeedsFor send nr = true := hok
      rw [hsucc, if_pos rfl] at hsent2 hfail2
      rw [if_pos hok, ih fuel' (l.map uu) (s + nr.segments) f hcount2 (by omega) hids2,
        hmapres]
      unfold sentSum failedSum
      rw [Prod.mk.injEq, Prod.mk.injEq]
      refine ⟨rfl, ?_, ?_⟩ <;> omega
    · have hsucc : succeedsFor send nr = false := by
        unfold succeedsFor
        exact Bool.of_not_eq_true hok
      rw [hsucc] at hsent2 hfail2
      simp only [if_neg (by simp : ¬(false : Bool) = true)] at hsent2 hfail2
      rw [if_neg hok, ih fuel' (l.map uu) s (f + nr.segments) hcount2 (by omega) hids2,
        hmapres]
      unfold sentSum failedSum
      rw [Prod.mk.injEq, Prod.mk.injEq]
      refine ⟨rfl, ?_, ?_⟩ <;> omega

/-! C4: resume with a stranded sending recipient. -/

set_option maxRecDepth 2000 in
/-- C4 counterexample: with exactly one recipient left in status sending
and none queued, the resume scan does relaunch the worker for the job, but
running the worker leaves the recipient list untouched - the recipient
stays in status sending, which is none of the terminal statuses sent,
failed or delivered - while the job is finalized completed with zero sent
segments. The drain selector therefore does not treat a sending recipient
as eligible for retry, contradicting the claim. -/
theorem c4_counterexample :
    resumes stSending.recips "j1" = true ∧
    (process_job sendFail "j1" 3 stSending).recips = [recSending] ∧
    recSending.status = RStatus.sending ∧
    RStatus.sending ≠ RStatus.sent ∧
    RStatus.sending ≠ RStatus.failed ∧
    RStatus.sending ≠ RStatus.delivered ∧
    (process_job sendFail "j1" 3 stSending).jobs.find? (fun j => j.id == "j1") =
      some { jobA with status := JStatus.completed
                       sent_segments := some 0
                       failed_segments := some 0
                       actual_cost_mills := some 0
                       refund_mills := some 46 } := by
  decide

/-- C4 amended: when a job has a recipient in status sending and none in
status queued, the startup scan does relaunch its worker, but the drain
selector only accepts queued recipients, so the worker changes no
recipient record (the sending one is never retried and keeps its
non-terminal status) and immediately finalizes the job as completed with
zero sent segments. -/
theorem c4_amended (send : String → Nat → Except String String) (jid : String)
    (st : St) (fuel : Nat)
    (hsending : ∃ r ∈ st.recips, r.jobId = jid ∧ r.status = RStatus.sending)
    (hnoqueued : ∀ r ∈ st.recips, r.jobId = jid → r.status ≠ RStatus.queued) :
    resumes st.recips jid = true ∧
    (process_job send jid fuel st).recips = st.recips ∧
    (∀ job, st.jobs.find? (fun j => j.id == jid) = some job →
      ∃ j2, (process_job send jid fuel st).jobs.find? (fun j => j.id == jid) = some j2 ∧
        j2.status = JStatus.completed ∧ j2.sent_segments = some 0) := by
  have hall : ∀ r ∈ st.recips, isQueuedOf jid r = false := by
    intro r hr
    unfold isQueuedOf
    by_cases hj : r.jobId = jid
    · have := hnoqueued r hr hj
      simp [hj, this]
    · simp [hj]
  have hdrain : drainLoop send jid fuel st.recips 0 0 = (st.recips, 0, 0) :=
    drainLoop_no_queued send jid fuel st.recips 0 0 hall
  refine ⟨?_, ?_, ?_⟩
  · obtain ⟨r, hr, hjob, hst⟩ := hsending
    unfold resumes
    rw [List.any_eq_true]
    exact ⟨r, hr, by simp [hjob, hst]⟩
  · unfold process_job
    rw [hdrain]
  · intro job hjob
    have hfin := find?_updateFirstJob jid
      (fun j => { j with status := JStatus.completed
                         sent_segments := some (0 : Nat)
                         failed_segments := some (0 : Nat)
                         actual_cost_mills := some ((0 * PRICE_PER_SMS_MILLS : Nat) : Int)
                         refund_mills := some (max 0 ((job.totalCost_mills : Int) -
                           ((0 * PRICE_PER_SMS_MILLS : Nat) : Int))) })
      (fun j => rfl) st.jobs job hjob
    refine ⟨{ job with status := JStatus.completed
                       sent_segments := some (0 : Nat)
                       failed_segments := some (0 : Nat)
                       actual_cost_mills := some ((0 * PRICE_PER_SMS_MILLS : Nat) : Int)
                       refund_mills := some (max 0 ((job.totalCost_mills : Int) -
                         ((0 * PRICE_PER_SMS_MILLS : Nat) : Int))) }, ?_, rfl, rfl⟩
    show (process_job send jid fuel st).jobs.find? (fun j => j.id == jid) = _
    unfold process_job
    rw [hdrain]
    show (finalizeJob st.jobs st.wallet jid 0 0).1.find? (fun j => j.id == jid) = _
    unfold finalizeJob
    rw [hjob]
    exact hfin

/-- Witness for C4 amended at the concrete stranded store. -/
theorem c4_amended_witness :
    resumes stSending.recips "j1" = true ∧
    (process_job sendFail "j1" 5 stSending).recips = stSending.recips :=
  And.intro
    (c4_amended sendFail "j1" stSending 5
      ⟨recSending, by decide, by decide, by decide⟩
      (by decide)).1
    (c4_amended sendFail "j1" stSending 5
      ⟨recSending, by decide, by decide, by decide⟩
      (by decide)).2.1

/-! C8: a recipient that exhausts every attempt. -/

/-- When every one of the six attempts fails, the retry loop reports no
sid and the error of the last attempt. -/
theorem sendOutcome_allFail (send : String → Nat → Except String String)
    (rid : String)
    (hfails : ∀ i, i < attemptsTotal → ∃ e, send rid i = Except.error e) :
    (sendOutcome send rid).1 = none ∧
    ∀ e, send rid (attemptsTotal - 1) = Except.error e →
      (sendOutcome send rid).2 = some e := by
  obtain ⟨e0, h0⟩ := hfails 0 (by norm_num [attemptsTotal, MAX_IMMEDIATE_RETRIES])
  obtain ⟨e1, h1⟩ := hfails 1 (by norm_num [attemptsTotal, MAX_IMMEDIATE_RETRIES])
  obtain ⟨e2, h2⟩ := hfails 2 (by norm_num [attemptsTotal, MAX_IMMEDIATE_RETRIES])
  obtain ⟨e3, h3⟩ := hfails 3 (by norm_num [attemptsTotal, MAX_IMMEDIATE_RETRIES])
  obtain ⟨e4, h4⟩ := hfails 4 (by norm_num [attemptsTotal, MAX_IMMEDIATE_RETRIES])
  obtain ⟨e5, h5⟩ := hfails 5 (by norm_num [attemptsTotal, MAX_IMMEDIATE_RETRIES])
  have hrange : List.range attemptsTotal = [0, 1, 2, 3, 4, 5] := by
    rw [show attemptsTotal = 6 from rfl]
    rfl
  have houtcome : sendOutcome send rid = (none, some e5) := by
    unfold sendOutcome
    rw [hrange]
    simp [runAttempts, h0, h1, h2, h3, h4, h5]
  refine ⟨by rw [houtcome], ?_⟩
  intro e he
  rw [show attemptsTotal - 1 = 5 from rfl] at he
  rw [he] at h5
  rw [houtcome]
  rw [Except.error.injEq] at h5
  rw [h5]

/-- C8: a queued recipient of the job all six of whose send attempts fail
ends up, after process_job, in status failed with one more attempt and the
last error recorded; its segments are counted in the failed total and not
in the sent total; and the job is still finalized completed, carrying
exactly those totals. -/
theorem c8_exhausted_failed (send : String → Nat → Except String String)
    (jid : String) (st : St) (fuel : Nat) (r : Recipient) (job : Job)
    (hids : (st.recips.map Recipient.id).Nodup)
    (hfuel : countQueued jid st.recips ≤ fuel)
    (hmem : r ∈ st.recips) (hjobid : r.jobId = jid) (hq : r.status = RStatus.queued)
    (hfails : ∀ i, i < attemptsTotal → ∃ e, send r.id i = Except.error e)
    (hjfind : st.jobs.find? (fun j => j.id == jid) = some job) :
    (∃ r2, r2 ∈ (process_job send jid fuel st).recips ∧ r2.id = r.id ∧
      r2.status = RStatus.failed ∧ r2.attempts = r.attempts + 1 ∧
      (∀ e, send r.id (attemptsTotal - 1) = Except.error e → r2.lastError = some e)) ∧
    (∃ j2, (process_job send jid fuel st).jobs.find? (fun j => j.id == jid) = some j2 ∧
      j2.status = JStatus.completed ∧
      j2.sent_segments = some (sentSum send jid st.recips) ∧
      j2.failed_segments = some (failedSum send jid st.recips)) ∧
    failedSum send jid st.recips = r.segments + failedSum send jid (st.recips.erase r) ∧
    sentSum send jid st.recips = sentSum send jid (st.recips.erase r) := by
  obtain ⟨hnone, hlast⟩ := sendOutcome_allFail send r.id hfails
  have hqb : isQueuedOf jid r = true := by
    simp [isQueuedOf, hjobid, hq]
  have hsucc : succeedsFor send r = false := by
    unfold succeedsFor
    rw [hnone]
    rfl
  have hdrain := drainLoop_correct send jid (countQueued jid st.recips) fuel st.recips 0 0
    rfl hfuel hids
  simp only [Nat.zero_add] at hdrain
  have hperm : st.recips.Perm (r :: st.recips.erase r) := List.perm_cons_erase hmem
  have hsplit_failed : failedSum send jid st.recips =
      r.segments + failedSum send jid (st.recips.erase r) := by
    unfold failedSum
    rw [List.Perm.sum_eq (List.Perm.map (failedInd send jid) hperm)]
    simp [failedInd, hqb, hsucc]
  have hsplit_sent : sentSum send jid st.recips =
      sentSum send jid (st.recips.erase r) := by
    unfold sentSum
    rw [List.Perm.sum_eq (List.Perm.map (sentInd send jid) hperm)]
    simp [sentInd, hqb, hsucc]
  have hout : sendOutcome send r.id = (none, (sendOutcome send r.id).2) := by
    rw [Prod.mk.injEq]
    exact ⟨hnone, rfl⟩
  have hresolved : resolveRecip send jid r =
      { r with attempts := r.attempts + 1
               status := RStatus.failed
               lastError := (sendOutcome send r.id).2 } := by
    rw [resolveRecip_of_queued send jid r hqb, hout]
    rfl
  have hrecips : (process_job send jid fuel st).recips =
      st.recips.map (resolveRecip send jid) := by
    unfold process_job
    rw [hdrain]
  have hjobs : (process_job send jid fuel st).jobs =
      (finalizeJob st.jobs st.wallet jid (sentSum send jid st.recips)
        (failedSum send jid st.recips)).1 := by
    unfold process_job
    rw [hdrain]
  have hfin := find?_updateFirstJob jid
    (fun j => { j with status := JStatus.completed
                       sent_segments := some (sentSum send jid st.recips)
                       failed_segments := some (failedSum send jid st.recips)
                       actual_cost_mills :=
                         some ((sentSum send jid st.recips * PRICE_PER_SMS_MILLS : Nat) : Int)
                       refund_mills := some (max 0 ((job.totalCost_mills : Int) -
                         ((sentSum send jid st.recips * PRICE_PER_SMS_MILLS : Nat) : Int))) })
    (fun j => rfl) st.jobs job hjfind
  refine ⟨⟨resolveRecip send jid r, ?_, ?_, ?_, ?_, ?_⟩,
    ⟨{ job with status := JStatus.completed
                sent_segments := some (sentSum send jid st.recips)
                failed_segments := some (failedSum send jid st.recips)
                actual_cost_mills :=
                  some ((sentSum send jid st.recips * PRICE_PER_SMS_MILLS : Nat) : Int)
                refund_mills := some (max 0 ((job.totalCost_mills : Int) -
                  ((sentSum send jid st.recips * PRICE_PER_SMS_MILLS : Nat) : Int))) },
      ?_, rfl, rfl, rfl⟩, hsplit_failed, hsplit_sent⟩
  · rw [hrecips]
    exact List.mem_map_of_mem _ hmem
  · rw [hresolved]
  · rw [hresolved]
  · rw [hresolved]
  · intro e he
    rw [hresolved]
    simp only
    exact hlast e he
  · rw [hjobs]
    unfold finalizeJob
    rw [hjfind]
    exact hfin

/-- Witness for C8 at the concrete one-recipient store with a provider
that fails every attempt. -/
theorem c8_exhausted_failed_witness :
    (∃ r2, r2 ∈ (process_job sendFail "j1" 1 stQueued).recips ∧ r2.id = recQueued.id ∧
      r2.status = RStatus.failed ∧ r2.attempts = recQueued.attempts + 1 ∧
      (∀ e, sendFail recQueued.id (attemptsTotal - 1) = Except.error e →
        r2.lastError = some e)) ∧
    (∃ j2, (process_job sendFail "j1" 1 stQueued).jobs.find? (fun j => j.id == "j1") =
        some j2 ∧
      j2.status = JStatus.completed ∧
      j2.sent_segments = some (sentSum sendFail "j1" stQueued.recips) ∧
      j2.failed_segments = some (failedSum sendFail "j1" stQueued.recips)) ∧
    failedSum sendFail "j1" stQueued.recips =
      recQueued.segments + failedSum sendFail "j1" (stQueued.recips.erase recQueued) ∧
    sentSum sendFail "j1" stQueued.recips =
      sentSum sendFail "j1" (stQueued.recips.erase recQueued) :=
  c8_exhausted_failed sendFail "j1" stQueued 1 recQueued jobA
    (by decide) (by decide) (by decide) (by decide) (by decide)
    (fun _ _ => ⟨"boom", rfl⟩) (by decide)

/-! C7: first-occurrence dedup in the estimator. -/

/-- A row whose canonical phone is already seen leaves the estimator
accumulator unchanged. -/
theorem stepRow_seen (validate : String → Except String String) (template : String)
    (st : EstState) (r : Row) (p : String)
    (hraw : rawPhone r ≠ "") (hval : validate (rawPhone r) = Except.ok p)
    (hseen : p ∈ st.seen_phones) :
    stepRow validate template st r = st := by
  unfold stepRow
  rw [if_neg (by simpa using hraw), hval]
  simp only
  rw [if_pos hseen]

/-- Invariant of the row loop: parsed phones are pairwise distinct and all
recorded as seen. -/
theorem estimate_invariant (validate : String → Except String String)
    (template : String) :
    ∀ (rows : List Row) (st : EstState),
    (st.parsed.map ParsedRow.phone).Nodup →
    (∀ q ∈ st.parsed.map ParsedRow.phone, q ∈ st.seen_phones) →
    ((rows.foldl (stepRow validate template) st).parsed.map ParsedRow.phone).Nodup ∧
    (∀ q ∈ (rows.foldl (stepRow validate template) st).parsed.map ParsedRow.phone,
      q ∈ (rows.foldl (stepRow validate template) st).seen_phones) := by
  intro rows
  induction rows with
  | nil => intro st h1 h2; exact ⟨h1, h2⟩
  | cons r rest ih =>
    intro st h1 h2
    rw [List.foldl_cons]
    apply ih
    · unfold stepRow
      by_cases hraw : rawPhone r = ""
      · simp [hraw, h1]
      · rw [if_neg (by simpa using hraw)]
        cases hval : validate (rawPhone r) with
        | error e => simp [h1]
        | ok p =>
          simp only
          by_cases hseen : p ∈ st.seen_phones
          · rw [if_pos hseen]
            exact h1
          · rw [if_neg hseen]
            simp only [List.map_append, List.map_cons, List.map_nil]
            rw [List.nodup_append]
            refine ⟨h1, List.nodup_singleton p, ?_⟩
            intro q hq hq1
            rw [List.mem_singleton] at hq1
            subst hq1
            exact hseen (h2 q hq)
    · unfold stepRow
      by_cases hraw : rawPhone r = ""
      · simp only [if_pos hraw]
        exact h2
      · rw [if_neg (by simpa using hraw)]
        cases hval : validate (rawPhone r) with
        | error e => exact h2
        | ok p =>
          simp only
          by_cases hseen : p ∈ st.seen_phones
          · rw [if_pos hseen]
            exact h2
          · rw [if_neg hseen]
            simp only [List.map_append, List.map_cons, List.map_nil]
            intro q hq
            rcases List.mem_append.mp hq with hq | hq
            · exact List.mem_append_left _ (h2 q hq)
            · exact List.mem_append_right _ hq

/-- C7: a later row whose canonical phone was already seen after the
earlier rows contributes nothing - deleting it from the batch leaves the
whole estimator output (accepted rows, totals, rejected rows, seen set)
unchanged, so exactly one accepted row is created from the first
occurrence and the duplicate row lands in neither list; and the accepted
phones of any batch are pairwise distinct. -/
theorem c7_dedup (validate : String → Except String String) (template : String) :
    (∀ (pre : List Row) (dup : Row) (post : List Row) (p : String),
      rawPhone dup ≠ "" →
      validate (rawPhone dup) = Except.ok p →
      p ∈ (estimateRows validate template pre).seen_phones →
      estimateRows validate template (pre ++ dup :: post) =
        estimateRows validate template (pre ++ post)) ∧
    (∀ rows : List Row,
      ((estimateRows validate template rows).parsed.map ParsedRow.phone).Nodup) := by
  constructor
  · intro pre dup post p hraw hval hseen
    unfold estimateRows at hseen ⊢
    rw [List.foldl_append, List.foldl_append, List.foldl_cons]
    rw [stepRow_seen validate template _ dup p hraw hval hseen]
  · intro rows
    exact (estimate_invariant validate template rows initEst (by simp [initEst])
      (by simp [initEst])).1

/-- Witness for C7: submitting the same phone twice produces the same
output as submitting it once. -/
theorem c7_dedup_witness :
    estimateRows okValidate "t" [[("phone", some "4165551234")], [("phone", some "4165551234")]] =
      estimateRows okValidate "t" [[("phone", some "4165551234")]] :=
  (c7_dedup okValidate "t").1 [[("phone", some "4165551234")]] [("phone", some "4165551234")]
    [] "4165551234" (by decide) rfl (by decide)

/-! C6: message resolution and template substitution. -/

/-- A list is a prefix of itself followed by anything. -/
theorem isPrefixList_self_append (pat y : List Char) :
    isPrefixList pat (pat ++ y) = true := by
  induction pat with
  | nil => rfl
  | cons a as ih => simp [isPrefixList, ih]

/-- Once the fuel covers the subject length, its exact value is
irrelevant. -/
theorem replaceFuel_fuel (pat rep : List Char) (hpat : pat ≠ []) :
    ∀ (fuel1 : Nat) (s : List Char) (fuel2 : Nat), s.length ≤ fuel1 → s.length ≤ fuel2 →
    replaceFuel pat rep fuel1 s = replaceFuel pat rep fuel2 s := by
  have hplen : 1 ≤ pat.length := by
    cases pat
    · exact absurd rfl hpat
    · simp
  intro fuel1
  induction fuel1 with
  | zero =>
    intro s fuel2 h1 _
    have hs : s = [] := List.eq_nil_of_length_eq_zero (by omega)
    subst hs
    cases fuel2 <;> rfl
  | succ n ih =>
    intro s fuel2 h1 h2
    cases s with
    | nil => cases fuel2 <;> rfl
    | cons c rest =>
      rw [List.length_cons] at h1 h2
      cases fuel2 with
      | zero => omega
      | succ m =>
        by_cases hpre : isPrefixList pat (c :: rest) = true
        · simp only [replaceFuel, if_pos hpre]
          congr 1
          apply ih
          · rw [List.length_drop, List.length_cons]
            omega
          · rw [List.length_drop, List.length_cons]
            omega
        · simp only [replaceFuel, if_neg hpre]
          congr 1
          apply ih <;> omega

/-- With no occurrence of a nonempty pattern, replacement is the
identity. -/
theorem replaceFuel_noHit (pat rep : List Char) (_hpat : pat ≠ []) :
    ∀ (fuel : Nat) (s : List Char), NoHit pat s → replaceFuel pat rep fuel s = s := by
  intro fuel
  induction fuel with
  | zero => intro s _; rfl
  | succ n ih =>
    intro s hno
    cases s with
    | nil => rfl
    | cons c rest =>
      have h0 : isPrefixList pat (c :: rest) = false := by
        have := hno 0 (by simp)
        simpa using this
      have hstep : replaceFuel pat rep (n + 1) (c :: rest) =
          c :: replaceFuel pat rep n rest := by
        simp only [replaceFuel]
        rw [if_neg]
        rw [h0]
        simp
      rw [hstep, ih rest]
      intro i hi
      have := hno (i + 1) (by simp only [List.length_cons]; omega)
      simpa [List.drop_succ_cons] using this

/-- Replacement of a subject whose leftmost occurrence of the pattern sits
right after the prefix x: the prefix is preserved, the occurrence becomes
the replacement, and replacement continues in the tail. -/
theorem replaceFuel_boundary (pat rep : List Char) (hpat : pat ≠ []) :
    ∀ (x y : List Char) (fuel : Nat), (x ++ pat ++ y).length ≤ fuel →
    (∀ i, i < x.length → isPrefixList pat ((x ++ pat ++ y).drop i) = false) →
    replaceFuel pat rep fuel (x ++ pat ++ y) =
      x ++ rep ++ replaceFuel pat rep y.length y := by
  have hplen : 1 ≤ pat.length := by
    cases pat
    · exact absurd rfl hpat
    · simp
  intro x
  induction x with
  | nil =>
    intro y fuel hfuel _
    simp only [List.nil_append] at hfuel ⊢
    rw [List.length_append] at hfuel
    cases fuel with
    | zero => omega
    | succ m =>
      cases hp : pat with
      | nil => exact absurd hp hpat
      | cons a as =>
        subst hp
        simp only [List.cons_append, replaceFuel]
        rw [if_pos (by
          have := isPrefixList_self_append (a :: as) y
          simpa using this)]
        congr 1
        show replaceFuel (a :: as) rep m (List.drop (a :: as).length (a :: (as ++ y))) =
          replaceFuel (a :: as) rep y.length y
        rw [List.length_cons, List.drop_succ_cons, List.drop_left]
        apply replaceFuel_fuel _ _ hpat
        · simp only [List.length_cons] at hfuel
          omega
        · omega
  | cons c x' ih =>
    intro y fuel hfuel hno
    have h0 : isPrefixList pat (((c :: x') ++ pat ++ y)) = false :=
      hno 0 (by simp)
    simp only [List.cons_append] at h0 hfuel ⊢
    rw [List.length_cons] at hfuel
    cases fuel with
    | zero => omega
    | succ m =>
      simp only [replaceFuel]
      rw [if_neg (by rw [h0]; simp)]
      rw [ih y m (by omega) (fun i hi => by
        have := hno (i + 1) (by simp only [List.length_cons]; omega)
        simpa [List.drop_succ_cons] using this)]

/-- str.replace is the identity when the pattern occurs nowhere. -/
theorem pyReplace_noHit (s pat rep : String) (hpat : pat.data ≠ [])
    (h : NoHit pat.data s.data) : pyReplace s pat rep = s := by
  unfold pyReplace pyReplaceL
  rw [if_neg hpat, replaceFuel_noHit pat.data rep.data hpat _ s.data h]

/-- Folding a function that fixes the accumulator over a whole list fixes
the accumulator. -/
theorem foldl_fix {α β : Type} (f : β → α → β) (b : β) (l : List α)
    (h : ∀ a ∈ l, f b a = b) : l.foldl f b = b := by
  induction l with
  | nil => rfl
  | cons a t ih =>
    rw [List.foldl_cons, h a (List.mem_cons_self a t)]
    exact ih (fun a2 ha2 => h a2 (List.mem_cons_of_mem a ha2))

/-- The placeholder of a column name is a nonempty string. -/
theorem token_ne_nil (k : String) : (token k).data ≠ [] := by
  simp [token]

/-- C6 counterexample: a row supplying the explicit message " hi " (with
surrounding whitespace) resolves to the stripped body "hi", not to the
verbatim message; and a template token naming a column absent from the row
is left in place rather than replaced by the empty string. -/
theorem c6_counterexample :
    resolveMessage "tpl" [("message", some " hi ")] = "hi" ∧
    "hi" ≠ " hi " ∧
    resolveMessage "a\x7b\x7bz\x7d\x7db" [("phone", some "+14165551234")] =
      "a\x7b\x7bz\x7d\x7db" ∧
    "a\x7b\x7bz\x7d\x7db" ≠ "ab" := by decide

/-- C6 amended: a row whose message column is nonblank after stripping
resolves to the stripped message; a blank-message row whose template
contains no occurrence of any of its column placeholders resolves to the
template unchanged (in particular a placeholder naming an absent column
survives verbatim); and for a one-column row the placeholder occurrence
right after a clean prefix is replaced by the column value (empty when the
value is missing), with replacement continuing in the tail. -/
theorem c6_amended :
    (∀ (t : String) (r : Row) (m : String),
      getCol r "message" = some m → pyStrip m ≠ "" →
      resolveMessage t r = pyStrip m) ∧
    (∀ (t : String) (r : Row),
      pyStrip ((getCol r "message").getD "") = "" →
      (∀ kv ∈ r, NoHit (token kv.1).data t.data) →
      resolveMessage t r = t) ∧
    (∀ (k : String) (v : Option String) (x y : List Char),
      k ≠ "message" →
      (∀ i, i < x.length →
        isPrefixList (token k).data ((x ++ (token k).data ++ y).drop i) = false) →
      resolveMessage (String.mk (x ++ (token k).data ++ y)) [(k, v)] =
        String.mk (x ++ (v.getD "").data ++
          pyReplaceL (token k).data (v.getD "").data y)) := by
  refine ⟨?_, ?_, ?_⟩
  · intro t r m hm hstrip
    unfold resolveMessage
    rw [hm]
    simp only [Option.getD_some]
    rw [if_pos hstrip]
  · intro t r hblank hno
    unfold resolveMessage
    rw [if_neg (by simpa using hblank)]
    apply foldl_fix
    intro kv hkv
    exact pyReplace_noHit t (token kv.1) (kv.2.getD "") (token_ne_nil kv.1) (hno kv hkv)
  · intro k v x y hk hno
    have hcol : getCol [(k, v)] "message" = none := by
      have hne : ("message" == k) = false := by
        simpa using Ne.symm hk
      simp [getCol, List.lookup, hne]
    unfold resolveMessage
    rw [hcol]
    simp only [Option.getD_none]
    rw [if_neg (by simp [pyStrip])]
    simp only [List.foldl_cons, List.foldl_nil]
    show pyReplace (String.mk (x ++ (token k).data ++ y)) (token k) (v.getD "") = _
    unfold pyReplace
    congr 1
    show pyReplaceL (token k).data (v.getD "").data (x ++ (token k).data ++ y) = _
    unfold pyReplaceL
    rw [if_neg (token_ne_nil k), if_neg (token_ne_nil k)]
    exact replaceFuel_boundary (token k).data (v.getD "").data (token_ne_nil k) x y _
      (le_refl _) hno

/-- Witness for C6 amended: substituting the name column into a greeting
template replaces the placeholder with the value. -/
theorem c6_amended_witness :
    resolveMessage (String.mk ("hi ".data ++ (token "name").data ++ "!".data))
      [("name", some "Bob")] =
    String.mk ("hi ".data ++ "Bob".data ++
      pyReplaceL (token "name").data "Bob".data "!".data) :=
  c6_amended.2.2 "name" (some "Bob") "hi ".data "!".data (by decide) (by decide)

/-! C10: attempt bounding in the standalone worker loop. -/

/-- The worker transition preserves the record id. -/
theorem wtransition_id (oracle : String → Except String String) (r : Recipient) :
    (wtransition oracle r).id = r.id := by
  cases h : oracle r.id with
  | ok sid => simp [wtransition, h]
  | error e => simp [wtransition, h]

/-- The worker transition increments the attempt counter by one. -/
theorem wtransition_attempts (oracle : String → Except String String) (r : Recipient) :
    (wtransition oracle r).attempts = r.attempts + 1 := by
  cases h : oracle r.id with
  | ok sid => simp [wtransition, h]
  | error e => simp [wtransition, h]

/-- Searching by id commutes with an id-preserving pointwise map. -/
theorem find?_map_id (l : List Recipient) (u : Recipient → Recipient)
    (hu : ∀ r, (u r).id = r.id) (i : String) :
    (l.map u).find? (fun r => r.id == i) = (l.find? (fun r => r.id == i)).map u := by
  rw [List.find?_map]
  have hfun : ((fun r : Recipient => r.id == i) ∘ u) = (fun r : Recipient => r.id == i) :=
    funext (fun r => by simp [Function.comp, hu])
  rw [hfun]

/-- One worker attempt on a record present in the store is the pointwise
worker transition at that id. -/
theorem worker_attempt_eq_map (oracle : String → Except String String)
    (recips : List Recipient) (b : Recipient)
    (hids : (recips.map Recipient.id).Nodup)
    (hfind : recips.find? (fun r => r.id == b.id) = some b) :
    worker_attempt oracle recips b.id =
      recips.map (fun r => if r.id = b.id then wtransition oracle r else r) := by
  have hids1 : ((recips.map (fun r => if r.id = b.id then
      { r with attempts := r.attempts + 1, status := RStatus.sending } else r)).map
      Recipient.id).Nodup := by
    rw [drain_ids_fixed b.id
      (fun r => { r with attempts := r.attempts + 1, status := RStatus.sending })
      (fun r => rfl) recips]
    exact hids
  unfold worker_attempt
  rw [hfind]
  simp only
  cases horacle : oracle b.id with
  | ok sid =>
    simp only
    rw [updateFirst_eq_map _ _ recips hids, updateFirst_eq_map _ _ _ hids1, List.map_map]
    apply List.map_congr_left
    intro r _
    simp only [Function.comp_apply]
    by_cases h : r.id = b.id
    · rw [if_pos h, if_pos h, if_pos h]
      unfold wtransition
      rw [show oracle r.id = Except.ok sid from h ▸ horacle]
    · rw [if_neg h, if_neg h, if_neg h]
  | error e =>
    simp only
    rw [updateFirst_eq_map _ _ recips hids, updateFirst_eq_map _ _ _ hids1, List.map_map]
    apply List.map_congr_left
    intro r _
    simp only [Function.comp_apply]
    by_cases h : r.id = b.id
    · rw [if_pos h, if_pos h, if_pos h]
      unfold wtransition
      rw [show oracle r.id = Except.error e from h ▸ horacle]
    · rw [if_neg h, if_neg h, if_neg h]

/-- Folding worker attempts over a batch of distinct records found in the
store applies the worker transition to exactly the batch ids. -/
theorem worker_fold (oracle : String → Except String String) :
    ∀ (bs acc : List Recipient),
    (acc.map Recipient.id).Nodup →
    (bs.map Recipient.id).Nodup →
    (∀ b ∈ bs, acc.find? (fun r => r.id == b.id) = some b) →
    bs.foldl (fun a r => worker_attempt oracle a r.id) acc =
      acc.map (fun r =>
        if r.id ∈ bs.map Recipient.id then wtransition oracle r else r) := by
  intro bs
  induction bs with
  | nil =>
    intro acc _ _ _
    rw [List.foldl_nil]
    exact (map_fix acc _ (fun r _ => by simp)).symm
  | cons b bs' ih =>
    intro acc ha hb hfind
    rw [List.foldl_cons,
      worker_attempt_eq_map oracle acc b ha (hfind b (List.mem_cons_self b bs'))]
    simp only [List.map_cons, List.nodup_cons] at hb
    have hupres : ∀ r : Recipient,
        ((fun r => if r.id = b.id then wtransition oracle r else r) r).id = r.id := by
      intro r
      by_cases h : r.id = b.id
      · simp [h, wtransition_id]
      · simp [h]
    have ha1 : ((acc.map (fun r => if r.id = b.id then wtransition oracle r else r)).map
        Recipient.id).Nodup := by
      rw [drain_ids_fixed b.id (wtransition oracle) (wtransition_id oracle) acc]
      exact ha
    have hfind1 : ∀ b2 ∈ bs',
        (acc.map (fun r => if r.id = b.id then wtransition oracle r else r)).find?
          (fun r => r.id == b2.id) = some b2 := by
      intro b2 hb2
      rw [find?_map_id acc _ hupres b2.id, hfind b2 (List.mem_cons_of_mem b hb2)]
      have hne : b2.id ≠ b.id := fun h => hb.1 (h ▸ List.mem_map_of_mem Recipient.id hb2)
      simp [hne]
    rw [ih _ ha1 hb.2 hfind1, List.map_map]
    apply List.map_congr_left
    intro r _
    simp only [Function.comp_apply]
    by_cases h : r.id = b.id
    · rw [if_pos h,
        if_neg (by rw [wtransition_id, h]; exact fun hc => hb.1 hc),
        if_pos (by rw [List.map_cons, List.mem_cons]; exact Or.inl h)]
    · rw [if_neg h]
      by_cases h2 : r.id ∈ bs'.map Recipient.id
      · rw [if_pos h2, if_pos (by rw [List.map_cons, List.mem_cons]; exact Or.inr h2)]
      · rw [if_neg h2, if_neg (by
          rw [List.map_cons, List.mem_cons]
          rintro (hc | hc)
          · exact h hc
          · exact h2 hc)]

/-- C10: in the worker.py loop, with distinct record ids and every attempt
counter at most 4, one batch pass keeps every counter at most 4; a batch
recipient whose send raises ends queued again while its incremented
counter is below 4 and failed once it reaches 4, with the error recorded;
and the drain filter never selects a queued recipient with 4 or more
attempts - so no recipient ever exceeds 4 attempts. -/
theorem c10_worker_bound (oracle : String → Except String String)
    (recips : List Recipient) (conc : Nat)
    (hids : (recips.map Recipient.id).Nodup)
    (hcap : ∀ r ∈ recips, r.attempts ≤ 4) :
    (∀ r2 ∈ worker_batch oracle recips conc, r2.attempts ≤ 4) ∧
    (∀ r ∈ (worker_select recips).take conc, ∀ e, oracle r.id = Except.error e →
      (worker_batch oracle recips conc).find? (fun x => x.id == r.id) =
        some { r with attempts := r.attempts + 1
                      lastError := some e
                      status := if r.attempts + 1 ≥ 4 then RStatus.failed
                                else RStatus.queued }) ∧
    (∀ r ∈ recips, r.status = RStatus.queued → 4 ≤ r.attempts →
      r ∉ worker_select recips) := by
  have hsub : ((worker_select recips).take conc).Sublist recips :=
    (List.take_sublist _ _).trans (List.filter_sublist _)
  have hbids : (((worker_select recips).take conc).map Recipient.id).Nodup :=
    (hsub.map Recipient.id).nodup hids
  have hfind : ∀ b ∈ (worker_select recips).take conc,
      recips.find? (fun r => r.id == b.id) = some b :=
    fun b hb => find?_of_id recips hids b (hsub.subset hb)
  have hchar : worker_batch oracle recips conc =
      recips.map (fun r =>
        if r.id ∈ ((worker_select recips).take conc).map Recipient.id then
          wtransition oracle r else r) :=
    worker_fold oracle _ recips hids hbids hfind
  have heligible : ∀ b ∈ (worker_select recips).take conc, b.attempts < 4 := by
    intro b hb
    have hf := List.of_mem_filter (List.mem_of_mem_take hb)
    simp only [workerEligible, Bool.and_eq_true, decide_eq_true_eq] at hf
    exact hf.2
  refine ⟨?_, ?_, ?_⟩
  · intro r2 hr2
    rw [hchar] at hr2
    rcases List.mem_map.mp hr2 with ⟨r, hr, rfl⟩
    by_cases h : r.id ∈ ((worker_select recips).take conc).map Recipient.id
    · rw [if_pos h, wtransition_attempts]
      rcases List.mem_map.mp h with ⟨b, hbmem, hbid⟩
      have hbr : b = r := eq_of_id_eq recips hids r hr b (hsub.subset hbmem) hbid
      have hlt := heligible b hbmem
      rw [hbr] at hlt
      omega
    · rw [if_neg h]
      exact hcap r hr
  · intro r hr e he
    rw [hchar, find?_map_id recips _ (fun r2 => by
        by_cases h : r2.id ∈ ((worker_select recips).take conc).map Recipient.id
        · rw [if_pos h, wtransition_id]
        · rw [if_neg h]) r.id,
      find?_of_id recips hids r (hsub.subset hr)]
    simp only [Option.map_some']
    rw [if_pos (List.mem_map_of_mem Recipient.id hr)]
    unfold wtransition
    rw [he]
  · intro r hr hq hge hmem
    have hf := List.of_mem_filter hmem
    simp only [workerEligible, Bool.and_eq_true, decide_eq_true_eq] at hf
    omega

/-- Witness for C10 at the one-recipient store with a failing provider:
the queued recipient with zero attempts is re-queued with one attempt and
its error recorded. -/
theorem c10_worker_bound_witness :
    (worker_batch oracleFail [recQueued] 4).find? (fun x => x.id == recQueued.id) =
      some { recQueued with attempts := recQueued.attempts + 1
                            lastError := some "boom"
                            status := if recQueued.attempts + 1 ≥ 4 then RStatus.failed
                                      else RStatus.queued } :=
  (c10_worker_bound oracleFail [recQueued] 4 (by decide) (by decide)).2.1
    recQueued (by decide) "boom" rfl

end CA
